import Mathlib

/-!
Verification of the Tablić table rule-enforcement engine.

Shallow embedding of the repository sources:
  src/game/card.py   (card value model: `_CARD_SCORE`, `_CARD_VALUES`, `Card`)
  src/game/table.py  (`Table`: `place`, `take`, `reset`, `_cards_sum_to`,
                      `_validate_game_state`)
  src/game/player.py (`Player.play` protocol layer)
Pure data is modelled directly; the Python methods that mutate a `Table` or a
`Player` are modelled as functions from the old state to either the new state
or an error paired with the state as it stands when the exception propagates.
-/

set_option maxHeartbeats 1000000

/-- Embeds src/game/card.py `_CARD_SCORE`: the score of each of the 52 cards,
rows in suit order Spades, Hearts, Clubs, Diamonds, columns A,2,...,10,J,Q,K. -/
def _CARD_SCORE : List Nat :=
  [1, 0, 0, 0, 0, 0, 0, 0, 0, 1, 1, 1, 1,
   1, 0, 0, 0, 0, 0, 0, 0, 0, 1, 1, 1, 1,
   1, 1, 0, 0, 0, 0, 0, 0, 0, 1, 1, 1, 1,
   1, 0, 0, 0, 0, 0, 0, 0, 0, 2, 1, 1, 1]

/-- One suit worth of capture values, as in src/game/card.py: the bracketed
list that `_CARD_VALUES = 4 * [...]` repeats. -/
def _CARD_VALUES_SUIT : List (List Nat) :=
  [[1, 11],
   [2], [3], [4], [5], [6], [7], [8], [9], [10],
   [12], [13], [14]]

/-- Embeds src/game/card.py `_CARD_VALUES = 4 * [...]`: Python list
repetition concatenates four copies of the one-suit list. -/
def _CARD_VALUES : List (List Nat) :=
  _CARD_VALUES_SUIT ++ _CARD_VALUES_SUIT ++ _CARD_VALUES_SUIT ++ _CARD_VALUES_SUIT

/-- A constructed Card. Python `Card.__init__` only accepts identities in
`range(52)`, and `Card.__eq__` compares `_id` alone, so a constructed card is
exactly an identity below 52. -/
structure Card where
  id : Fin 52
deriving DecidableEq, Repr

/-- Convenience constructor for concrete cards. -/
def card (n : Fin 52) : Card := ⟨n⟩

/-- Embeds the `self.score = _CARD_SCORE[id]` attribute of src/game/card.py. -/
def Card.score (c : Card) : Nat := _CARD_SCORE.getD c.id.val 0

/-- Embeds the `self.value = _CARD_VALUES[id]` attribute of src/game/card.py. -/
def Card.value (c : Card) : List Nat := _CARD_VALUES.getD c.id.val []

/-- Embeds src/game/card.py `Card.__init__` applied to an arbitrary integer
identity: Python raises `ValueError(f"Invalid card ...")` when
`id not in range(_NCARDS)`, that is, unless `0 <= id < 52`; otherwise it
stores `_id`, `score` and `value`, returned here as a triple. -/
def cardConstruct (id : Int) : Except String (Int × Nat × List Nat) :=
  if 0 ≤ id ∧ id < 52 then
    .ok (id, _CARD_SCORE.getD id.toNat 0, _CARD_VALUES.getD id.toNat [])
  else
    .error "Invalid card"

/-- Score table as worded by the spec (section 3): Ace, 10, J, Q, K score 1,
except 10 of Diamonds (identity 48) which scores 2 and 2 of Clubs
(identity 27) which scores 1; all other ranks score 0. The rank index is
the identity mod 13. -/
def specCardScore (i : Nat) : Nat :=
  if i = 48 then 2
  else if i = 27 then 1
  else if i % 13 = 0 ∨ i % 13 = 9 ∨ 10 ≤ i % 13 then 1
  else 0

/-- Capture values as worded by the spec (section 3): Aces are 1 or 11,
ranks 2 through 10 capture as their rank, and J, Q, K capture as 12, 13
and 14 respectively. -/
def specCardValues (i : Nat) : List Nat :=
  if i % 13 = 0 then [1, 11]
  else if i % 13 ≤ 9 then [i % 13 + 1]
  else [i % 13 + 2]

/-- The shared play area of src/game/table.py: the face-up cards, the
full play history, and the last-played display field. -/
structure Table where
  cards : List Card
  history : List Card
  last : Option Card
deriving DecidableEq, Repr

/-- The distinct raise sites of src/game/table.py, by rule.
`stateOnTable` and `statePlayed` are the two `IllegalStateException`
raises of `_validate_game_state`; the rest are the `IllegalMoveException`
raises of `take`, in source order. -/
inductive TableErr where
  | stateOnTable : TableErr
  | statePlayed : TableErr
  | emptyTaken : TableErr
  | playedInTaken : TableErr
  | tooMany : TableErr
  | notOnTable : TableErr
  | dupTaken : TableErr
  | badSum : TableErr
deriving DecidableEq, Repr

/-- True for the raise sites that raise `IllegalMoveException`, false for the
two that raise `IllegalStateException`. -/
def TableErr.isIllegalMove : TableErr → Bool
  | .stateOnTable => false
  | .statePlayed => false
  | _ => true

/-- Embeds src/game/table.py `Table._validate_game_state`: first the
card-on-table check, then the card-in-history check. -/
def Table.validateGameState (t : Table) (c : Card) : Option TableErr :=
  if c ∈ t.cards then some .stateOnTable
  else if c ∈ t.history then some .statePlayed
  else none

/-- The empty state a Table holds right after `Table.__init__` (which calls
`reset`) in src/game/table.py. -/
def Table.empty : Table := { cards := [], history := [], last := none }

/-- Embeds src/game/table.py `Table.reset`: unconditionally empties `cards`
and `history` and clears `last`, whatever the prior state was. -/
def Table.reset (_t : Table) : Table := Table.empty

/-- Embeds src/game/table.py `Table.place`: validate, then append the card
to both `cards` and `history`. On error the state is returned as it stands
when the exception propagates. -/
def Table.place (t : Table) (c : Card) : Except (TableErr × Table) Table :=
  match t.validateGameState c with
  | some e => .error (e, t)
  | none => .ok { t with cards := t.cards ++ [c], history := t.history ++ [c] }

/-- Embeds `itertools.chain.from_iterable(taken)` from src/game/table.py
`take`: the concatenation of the sub-collections. -/
def flattenTaken : List (List Card) → List Card
  | [] => []
  | g :: gs => g ++ flattenTaken gs

/-- Embeds `itertools.product` as used by `Table._cards_sum_to`: every way
of choosing one element from each list, in order. -/
def listProduct : List (List Nat) → List (List Nat)
  | [] => [[]]
  | l :: ls => l.foldr (fun x acc => (listProduct ls).map (fun xs => x :: xs) ++ acc) []

/-- Embeds src/game/table.py `Table._cards_sum_to`: some tuple in the
product of the per-card value lists sums to a member of `values`. -/
def cardsSumTo (cs : List Card) (values : List Nat) : Bool :=
  (listProduct (cs.map Card.value)).any (fun vs => decide (vs.sum ∈ values))

/-- Embeds the `for i, card in enumerate(flat)` loop of src/game/table.py
`take`: for each card in order, first the membership-on-table check
(RULE 3), then the duplicate check against the remaining suffix
`flat[i + 1:]` (RULE 4). Returns the first raise, if any. -/
def checkFlat (cards : List Card) : List Card → Option TableErr
  | [] => none
  | c :: rest =>
    if c ∉ cards then some .notOnTable
    else if c ∈ rest then some .dupTaken
    else checkFlat cards rest

/-- Embeds the `for cards in taken` loop of src/game/table.py `take`
(RULE 5): the first sub-collection whose values cannot sum to a value of
the played card raises. -/
def checkSums (taken : List (List Card)) (values : List Nat) : Option TableErr :=
  match taken with
  | [] => none
  | g :: gs => if cardsSumTo g values then checkSums gs values else some .badSum

/-- Embeds src/game/table.py `Table.take`, statement by statement:
state validation of `played`, flattening of `taken`, RULE 1 (at least one
taken card), RULE 2 (`played` not among the taken), the fast cardinality
check, the per-card membership and duplicate loop, the per-sub-collection
sum loop, then the mutations: append `played` to `history`, remove each
flat card from `cards` (Python `list.remove`, first occurrence), and
return `[played, *flat]` with the cleared flag. On error the state is
returned as it stands when the exception propagates. -/
def Table.take (t : Table) (played : Card) (taken : List (List Card)) :
    Except (TableErr × Table) (Table × List Card × Bool) :=
  match t.validateGameState played with
  | some e => .error (e, t)
  | none =>
    let flat := flattenTaken taken
    if flat.length < 1 then .error (.emptyTaken, t)
    else if played ∈ flat then .error (.playedInTaken, t)
    else if t.cards.length < flat.length then .error (.tooMany, t)
    else
      match checkFlat t.cards flat with
      | some e => .error (e, t)
      | none =>
        match checkSums taken played.value with
        | some e => .error (e, t)
        | none =>
          let newCards := flat.foldl (fun cs c => cs.erase c) t.cards
          .ok ({ t with cards := newCards, history := t.history ++ [played] },
               played :: flat, decide (newCards.length = 0))

/-- Tables reachable from a fresh `Table()` by successful `place`, `take`
and `reset` calls. -/
inductive Reachable : Table → Prop where
  | created : Reachable Table.empty
  | placed {t t2 : Table} {c : Card} :
      Reachable t → t.place c = .ok t2 → Reachable t2
  | took {t t2 : Table} {p : Card} {tk : List (List Card)} {res : List Card} {cl : Bool} :
      Reachable t → t.take p tk = .ok (t2, res, cl) → Reachable t2
  | wasReset {t : Table} : Reachable t → Reachable t.reset

/-- Error kinds of the protocol layer of src/game/player.py: either the
`IllegalStrategyException` raised there, or an exception propagated from
the Table. -/
inductive PlayerErr where
  | illegalStrategy : PlayerErr
  | tableErr : TableErr → PlayerErr
deriving DecidableEq, Repr

/-- Player-owned state of src/game/player.py: clear counter, collected
cards, and hand. -/
structure Player where
  clears : Nat
  collection : List Card
  hand : List Card
deriving DecidableEq, Repr

/-- Embeds src/game/player.py `Player.play`, with the pair returned by
`self.strategy(table)` passed in as `playCard, takeCards`. The two
isinstance shape checks of the Python code hold for every typed value here,
so they never raise in the embedding. After the hand check the card is
removed from the hand (Python `list.remove`, first occurrence), and only
then is the Table invoked; a Table exception propagates with the hand
already shrunk. On error the states are returned as they stand when the
exception propagates. -/
def Player.play (p : Player) (t : Table) (playCard : Card)
    (takeCards : List (List Card)) :
    Except (PlayerErr × Player × Table) (Player × Table) :=
  if playCard ∉ p.hand then .error (.illegalStrategy, p, t)
  else
    let p1 : Player := { p with hand := p.hand.erase playCard }
    if takeCards.length = 0 ∨ ∀ g ∈ takeCards, g.length = 0 then
      match t.place playCard with
      | .error (e, t2) => .error (.tableErr e, p1, t2)
      | .ok t2 => .ok (p1, t2)
    else
      match t.take playCard takeCards with
      | .error (e, t2) => .error (.tableErr e, p1, t2)
      | .ok (t2, collected, cleared) =>
        .ok ({ p1 with
               clears := p1.clears + (if cleared then 1 else 0),
               collection := p1.collection ++ collected }, t2)

/-- The existence property worded by the spec: some assignment of one
capture value per card of `g` sums to a member of `values`. -/
def SumMatch (g : List Card) (values : List Nat) : Prop :=
  ∃ vs : List Nat, List.Forall₂ (fun v c => v ∈ Card.value c) vs g ∧ vs.sum ∈ values

/-- Membership in the foldr-append accumulator used by `listProduct`. -/
theorem mem_listProduct_aux {ls : List (List Nat)} {l : List Nat} {xs : List Nat} :
    xs ∈ l.foldr (fun x acc => (listProduct ls).map (fun ys => x :: ys) ++ acc) [] ↔
      ∃ x ∈ l, ∃ ys ∈ listProduct ls, xs = x :: ys := by
  induction l with
  | nil => simp
  | cons a l ih =>
    simp only [List.foldr_cons, List.mem_append, List.mem_map, ih, List.mem_cons]
    constructor
    · rintro (⟨ys, hys, rfl⟩ | ⟨x, hx, ys, hys, rfl⟩)
      · exact ⟨a, Or.inl rfl, ys, hys, rfl⟩
      · exact ⟨x, Or.inr hx, ys, hys, rfl⟩
    · rintro ⟨x, hx | hx, ys, hys, rfl⟩
      · exact Or.inl ⟨ys, hys, by rw [hx]⟩
      · exact Or.inr ⟨x, hx, ys, hys, rfl⟩

/-- A tuple is in the product of a list of lists exactly when it picks one
member from each list, in order. -/
theorem mem_listProduct {ls : List (List Nat)} {xs : List Nat} :
    xs ∈ listProduct ls ↔ List.Forall₂ (fun x l => x ∈ l) xs ls := by
  induction ls generalizing xs with
  | nil =>
    simp only [listProduct, List.mem_singleton]
    constructor
    · rintro rfl; exact List.Forall₂.nil
    · intro h; cases h; rfl
  | cons l ls ih =>
    simp only [listProduct, mem_listProduct_aux]
    constructor
    · rintro ⟨x, hx, ys, hys, rfl⟩
      exact List.Forall₂.cons hx (ih.mp hys)
    · intro h
      cases h with
      | cons hx hys => exact ⟨_, hx, _, ih.mpr hys, rfl⟩

/-- The exhaustive product search of `_cards_sum_to` decides exactly the
existence of a capture-value assignment. -/
theorem cardsSumTo_iff {g : List Card} {values : List Nat} :
    cardsSumTo g values = true ↔ SumMatch g values := by
  unfold cardsSumTo SumMatch
  rw [List.any_eq_true]
  constructor
  · rintro ⟨vs, hvs, hsum⟩
    rw [mem_listProduct, List.forall₂_map_right_iff] at hvs
    exact ⟨vs, hvs, of_decide_eq_true hsum⟩
  · rintro ⟨vs, hvs, hsum⟩
    refine ⟨vs, ?_, decide_eq_true hsum⟩
    rw [mem_listProduct, List.forall₂_map_right_iff]
    exact hvs

/-- The sum loop passes exactly when every sub-collection passes the
product search. -/
theorem checkSums_eq_none {taken : List (List Card)} {values : List Nat} :
    checkSums taken values = none ↔ ∀ g ∈ taken, cardsSumTo g values = true := by
  induction taken with
  | nil => simp [checkSums]
  | cons g gs ih =>
    by_cases hg : cardsSumTo g values
    · simp [checkSums, hg, ih]
    · simp [checkSums, hg]

/-- When some sub-collection fails the product search, the sum loop raises
the sum-rule error. -/
theorem checkSums_eq_some {taken : List (List Card)} {values : List Nat}
    (h : ∃ g ∈ taken, ¬ cardsSumTo g values = true) :
    checkSums taken values = some .badSum := by
  induction taken with
  | nil => simp at h
  | cons g gs ih =>
    by_cases hg : cardsSumTo g values
    · rcases h with ⟨g2, hg2, hbad⟩
      rcases List.mem_cons.mp hg2 with rfl | hg2
      · exact absurd hg hbad
      · simpa [checkSums, hg] using ih ⟨g2, hg2, hbad⟩
    · simp [checkSums, hg]

/-- Removing the flat cards one by one yields a sublist of the original
table cards. -/
theorem foldlErase_sublist (f cards : List Card) :
    (f.foldl (fun cs c => cs.erase c) cards).Sublist cards := by
  induction f generalizing cards with
  | nil => exact List.Sublist.refl cards
  | cons a f ih =>
    exact (ih (cards.erase a)).trans (List.erase_sublist a cards)

/-- On a duplicate-free table, a card that is removed stays removed: every
member of `f` is absent after the removal loop. -/
theorem not_mem_foldlErase {cards f : List Card} (hnd : cards.Nodup)
    {c : Card} (hc : c ∈ f) :
    c ∉ f.foldl (fun cs c => cs.erase c) cards := by
  induction f generalizing cards with
  | nil => simp at hc
  | cons a f ih =>
    rcases List.mem_cons.mp hc with rfl | hc
    · by_cases hmem : c ∈ f
      · exact ih (hnd.erase c) hmem
      · intro habs
        have hsub := (foldlErase_sublist f (cards.erase c)).subset habs
        exact hnd.not_mem_erase hsub
    · exact ih (hnd.erase a) hc

/-- A state validation that passes means the card is neither on the table
nor in the history. -/
theorem validateGameState_none {t : Table} {c : Card} :
    t.validateGameState c = none ↔ c ∉ t.cards ∧ c ∉ t.history := by
  unfold Table.validateGameState
  by_cases hc : c ∈ t.cards
  · simp [hc]
  · by_cases hh : c ∈ t.history
    · simp [hc, hh]
    · simp [hc, hh]

/-- Inversion of a successful `place`. -/
theorem place_ok_inv {t : Table} {c : Card} {t2 : Table}
    (h : t.place c = .ok t2) :
    c ∉ t.cards ∧ c ∉ t.history ∧
    t2 = { t with cards := t.cards ++ [c], history := t.history ++ [c] } := by
  cases hv : t.validateGameState c with
  | some e => simp only [Table.place, hv] at h; exact Except.noConfusion h
  | none =>
    simp only [Table.place, hv] at h
    have hv2 := validateGameState_none.mp hv
    exact ⟨hv2.1, hv2.2, (Except.ok.inj h).symm⟩

/-- Every raise site of `place` returns the untouched state. -/
theorem place_error_inv {t : Table} {c : Card} {e : TableErr} {t2 : Table}
    (h : t.place c = .error (e, t2)) : t2 = t := by
  cases hv : t.validateGameState c with
  | some e2 =>
    simp only [Table.place, hv] at h
    have h2 := Except.error.inj h
    exact (congrArg Prod.snd h2).symm
  | none =>
    simp only [Table.place, hv] at h
    exact Except.noConfusion h

/-- Every raise site of `take` returns the untouched state. -/
theorem take_error_inv {t : Table} {p : Card} {tk : List (List Card)}
    {e : TableErr} {t2 : Table}
    (h : t.take p tk = .error (e, t2)) : t2 = t := by
  simp only [Table.take] at h
  repeat' split at h
  all_goals
    first
    | exact Except.noConfusion h
    | exact (congrArg Prod.snd (Except.error.inj h)).symm

/-- Under a passing state check and rules 1 through 4, `take` reduces to the
membership-and-duplicate loop, the sum loop and the mutations. -/
theorem take_reduce {t : Table} {p : Card} {taken : List (List Card)}
    (hv : t.validateGameState p = none)
    (h1 : ¬ (flattenTaken taken).length < 1)
    (h2 : p ∉ flattenTaken taken)
    (h3 : ¬ t.cards.length < (flattenTaken taken).length) :
    t.take p taken =
      match checkFlat t.cards (flattenTaken taken) with
      | some e => .error (e, t)
      | none =>
        match checkSums taken p.value with
        | some e => .error (e, t)
        | none =>
          .ok ({ t with
                 cards := (flattenTaken taken).foldl (fun cs c => cs.erase c) t.cards,
                 history := t.history ++ [p] },
               p :: flattenTaken taken,
               decide ((((flattenTaken taken).foldl (fun cs c => cs.erase c) t.cards)).length = 0)) := by
  simp only [Table.take, hv, if_neg h1, if_neg h2, if_neg h3]

/-- Inversion of a successful `take`: every check passed and the new state,
result list and cleared flag have the shapes the mutation code produces. -/
theorem take_ok_inv {t : Table} {p : Card} {taken : List (List Card)}
    {t2 : Table} {res : List Card} {cl : Bool}
    (h : t.take p taken = .ok (t2, res, cl)) :
    t.validateGameState p = none ∧
    (flattenTaken taken).length ≥ 1 ∧
    p ∉ flattenTaken taken ∧
    (flattenTaken taken).length ≤ t.cards.length ∧
    checkFlat t.cards (flattenTaken taken) = none ∧
    checkSums taken p.value = none ∧
    t2 = { t with
           cards := (flattenTaken taken).foldl (fun cs c => cs.erase c) t.cards,
           history := t.history ++ [p] } ∧
    res = p :: flattenTaken taken ∧
    cl = decide ((((flattenTaken taken).foldl (fun cs c => cs.erase c) t.cards)).length = 0) := by
  cases hv : t.validateGameState p with
  | some e => simp only [Table.take, hv] at h; exact Except.noConfusion h
  | none =>
  simp only [Table.take, hv] at h
  by_cases h1 : (flattenTaken taken).length < 1
  · rw [if_pos h1] at h; exact Except.noConfusion h
  · rw [if_neg h1] at h
    by_cases h2 : p ∈ flattenTaken taken
    · rw [if_pos h2] at h; exact Except.noConfusion h
    · rw [if_neg h2] at h
      by_cases h3 : t.cards.length < (flattenTaken taken).length
      · rw [if_pos h3] at h; exact Except.noConfusion h
      · rw [if_neg h3] at h
        cases h4 : checkFlat t.cards (flattenTaken taken) with
        | some e => simp only [h4] at h; exact Except.noConfusion h
        | none =>
        simp only [h4] at h
        cases h5 : checkSums taken p.value with
        | some e => simp only [h5] at h; exact Except.noConfusion h
        | none =>
        simp only [h5] at h
        have h6 := Except.ok.inj h
        simp only [Prod.mk.injEq] at h6
        exact ⟨rfl, Nat.le_of_not_lt h1, h2, Nat.le_of_not_lt h3, rfl, rfl,
               h6.1.symm, h6.2.1.symm, h6.2.2.symm⟩

/-- If every card before `c` passes both of its checks and `c` is absent
from the table, the loop raises the membership error — whether or not `c`
is also duplicated later. -/
theorem checkFlat_firstBad_notOnTable {cards pre : List Card} {c : Card} {post : List Card}
    (hpre : ∀ x ∈ pre, x ∈ cards) (hnd : pre.Nodup)
    (hdisj : ∀ x ∈ pre, x ∉ c :: post)
    (hc : c ∉ cards) :
    checkFlat cards (pre ++ c :: post) = some .notOnTable := by
  induction pre with
  | nil => simp [checkFlat, hc]
  | cons a pre ih =>
    have ha : a ∈ cards := hpre a (List.mem_cons_self ..)
    have hna : a ∉ pre ++ c :: post := by
      rw [List.mem_append]
      rintro (h | h)
      · exact (List.nodup_cons.mp hnd).1 h
      · exact hdisj a (List.mem_cons_self ..) h
    simp only [List.cons_append, checkFlat, List.append_eq,
               if_neg (not_not_intro ha), if_neg hna]
    exact ih (fun x hx => hpre x (List.mem_cons_of_mem a hx)) (List.nodup_cons.mp hnd).2
      (fun x hx => hdisj x (List.mem_cons_of_mem a hx))

/-- If every card before `c` passes both of its checks, `c` is on the table
and `c` occurs again later, the loop raises the duplicate error. -/
theorem checkFlat_firstBad_dup {cards pre : List Card} {c : Card} {post : List Card}
    (hpre : ∀ x ∈ pre, x ∈ cards) (hnd : pre.Nodup)
    (hdisj : ∀ x ∈ pre, x ∉ c :: post)
    (hc : c ∈ cards) (hdup : c ∈ post) :
    checkFlat cards (pre ++ c :: post) = some .dupTaken := by
  induction pre with
  | nil => simp [checkFlat, hc, hdup]
  | cons a pre ih =>
    have ha : a ∈ cards := hpre a (List.mem_cons_self ..)
    have hna : a ∉ pre ++ c :: post := by
      rw [List.mem_append]
      rintro (h | h)
      · exact (List.nodup_cons.mp hnd).1 h
      · exact hdisj a (List.mem_cons_self ..) h
    simp only [List.cons_append, checkFlat, List.append_eq,
               if_neg (not_not_intro ha), if_neg hna]
    exact ih (fun x hx => hpre x (List.mem_cons_of_mem a hx)) (List.nodup_cons.mp hnd).2
      (fun x hx => hdisj x (List.mem_cons_of_mem a hx))

/-- No card has 0 among its capture values. -/
theorem zero_not_mem_value : ∀ c : Card, (0 : Nat) ∉ c.value := by
  intro c
  cases c with
  | mk i =>
    revert i
    decide

/-- An empty sub-collection can never pass the product search: its only
assignment sums to 0, and 0 is no capture value. -/
theorem cardsSumTo_nil_group (p : Card) : cardsSumTo [] p.value = false := by
  simp [cardsSumTo, listProduct, zero_not_mem_value p]

/-- Two cards with the same identity are the same card. -/
theorem card_id_injective : Function.Injective Card.id := by
  intro a b h
  cases a
  cases b
  cases h
  rfl

/-- Every reachable table has duplicate-free `cards` and `history`. -/
theorem reachable_nodup : ∀ {t : Table}, Reachable t → t.cards.Nodup ∧ t.history.Nodup := by
  intro t h
  induction h with
  | created => exact ⟨List.nodup_nil, List.nodup_nil⟩
  | placed hre hok ih =>
    obtain ⟨hc, hh, rfl⟩ := place_ok_inv hok
    exact ⟨List.Nodup.append ih.1 (List.nodup_singleton _) (List.disjoint_singleton.mpr hc),
           List.Nodup.append ih.2 (List.nodup_singleton _) (List.disjoint_singleton.mpr hh)⟩
  | took hre hok ih =>
    obtain ⟨hv, _, _, _, hcf, _, rfl, _, _⟩ := take_ok_inv hok
    have hv2 := validateGameState_none.mp hv
    exact ⟨(foldlErase_sublist _ _).nodup ih.1,
           List.Nodup.append ih.2 (List.nodup_singleton _) (List.disjoint_singleton.mpr hv2.2)⟩
  | wasReset hre => exact ⟨List.nodup_nil, List.nodup_nil⟩

/-- Claim C1: for every `take(played, taken)` that passes rules 1 through 6,
the capture-sum check is applied to each sub-collection independently:
`take` succeeds exactly when every sub-collection admits an assignment of
one capture value per card summing to a capture value of `played`, and
raises IllegalMove (the sum-rule error) when some sub-collection has no
such assignment. In particular, with table cards 10♠ and A♥ and no prior
history of A♠, taking both with A♠ succeeds (10 + 1 = 11) and clears the
table. -/
theorem take_capture_sum_per_group :
    (∀ (t : Table) (p : Card) (taken : List (List Card)),
      t.validateGameState p = none →
      1 ≤ (flattenTaken taken).length →
      p ∉ flattenTaken taken →
      (flattenTaken taken).length ≤ t.cards.length →
      checkFlat t.cards (flattenTaken taken) = none →
      (((∃ t2 res cl, t.take p taken = .ok (t2, res, cl)) ↔
          ∀ g ∈ taken, SumMatch g p.value) ∧
       ((∃ g ∈ taken, ¬ SumMatch g p.value) →
          t.take p taken = .error (.badSum, t) ∧ TableErr.badSum.isIllegalMove = true))) ∧
    ((⟨[card 9, card 13], [card 9, card 13], none⟩ : Table).take (card 0) [[card 9, card 13]] =
       .ok (⟨[], [card 9, card 13, card 0], none⟩, [card 0, card 9, card 13], true)) := by
  constructor
  · intro t p taken hv h1 h2 h3 hcf
    have hred := take_reduce hv (Nat.not_lt.mpr h1) h2 (Nat.not_lt.mpr h3)
    rw [hcf] at hred
    constructor
    · constructor
      · rintro ⟨t2, res, cl, hok⟩ g hg
        cases hcs : checkSums taken p.value with
        | some e =>
          rw [hcs] at hred
          rw [hred] at hok
          exact Except.noConfusion hok
        | none =>
          exact cardsSumTo_iff.mp (checkSums_eq_none.mp hcs g hg)
      · intro hall
        have hcs : checkSums taken p.value = none :=
          checkSums_eq_none.mpr (fun g hg => cardsSumTo_iff.mpr (hall g hg))
        rw [hcs] at hred
        exact ⟨_, _, _, hred⟩
    · rintro ⟨g, hg, hbad⟩
      have hcs : checkSums taken p.value = some .badSum :=
        checkSums_eq_some ⟨g, hg, fun hc => hbad (cardsSumTo_iff.mp hc)⟩
      rw [hcs] at hred
      exact ⟨hred, rfl⟩
  · rfl

/-- Witness for C1: on a table holding only the 5♠, playing the A♠ and
asking for the 5♠ fails the sum rule, all earlier rules passing. -/
theorem take_capture_sum_per_group_witness :
    (⟨[card 4], [card 4], none⟩ : Table).take (card 0) [[card 4]] =
      .error (.badSum, ⟨[card 4], [card 4], none⟩) ∧
    TableErr.badSum.isIllegalMove = true :=
  (take_capture_sum_per_group.1 ⟨[card 4], [card 4], none⟩ (card 0) [[card 4]]
      rfl (by decide) (by decide) (by decide) rfl).2
    ⟨[card 4], by decide, fun hsm => absurd (cardsSumTo_iff.mpr hsm) (by decide)⟩

/-- Claim C2: every successful `take(played, taken)` appends `played` to
the history and never to the table cards, removes every flattened taken
card from the table (all are absent afterwards), returns `[played]`
followed by the flattened taken cards in order, and returns `cleared` true
exactly when the table is empty after the removals. The table is assumed
duplicate-free, which every reachable table is. -/
theorem take_success_effects :
    ∀ (t : Table) (p : Card) (taken : List (List Card))
      (t2 : Table) (res : List Card) (cl : Bool),
    t.cards.Nodup →
    t.take p taken = .ok (t2, res, cl) →
    t2.history = t.history ++ [p] ∧
    p ∉ t2.cards ∧
    (∀ c ∈ flattenTaken taken, c ∉ t2.cards) ∧
    res = p :: flattenTaken taken ∧
    (cl = true ↔ t2.cards = []) := by
  intro t p taken t2 res cl hnd h
  obtain ⟨hv, _, _, _, hcf, hcs, rfl, hres, hcl⟩ := take_ok_inv h
  have hv2 := validateGameState_none.mp hv
  refine ⟨rfl, ?_, ?_, hres, ?_⟩
  · intro habs
    exact hv2.1 ((foldlErase_sublist _ _).subset habs)
  · intro c hc
    exact not_mem_foldlErase hnd hc
  · rw [hcl]
    simp only [decide_eq_true_iff, List.length_eq_zero]

/-- Witness for C2: taking the 2♠ with the 2♥ on a one-card table. -/
theorem take_success_effects_witness :
    (⟨[], [card 1, card 14], none⟩ : Table).history = [card 1] ++ [card 14] ∧
    card 14 ∉ (⟨[], [card 1, card 14], none⟩ : Table).cards ∧
    (∀ c ∈ flattenTaken [[card 1]], c ∉ (⟨[], [card 1, card 14], none⟩ : Table).cards) ∧
    [card 14, card 1] = card 14 :: flattenTaken [[card 1]] ∧
    (true = true ↔ (⟨[], [card 1, card 14], none⟩ : Table).cards = []) :=
  take_success_effects ⟨[card 1], [card 1], none⟩ (card 14) [[card 1]]
    ⟨[], [card 1, card 14], none⟩ [card 14, card 1] true (by decide) rfl

/-- Claim C3: every `place` or `take` call that raises leaves the Table
exactly as it was: all raise sites return the unmutated state. -/
theorem rejected_call_leaves_state :
    (∀ (t : Table) (c : Card) (e : TableErr) (t2 : Table),
       t.place c = .error (e, t2) → t2 = t) ∧
    (∀ (t : Table) (p : Card) (tk : List (List Card)) (e : TableErr) (t2 : Table),
       t.take p tk = .error (e, t2) → t2 = t) :=
  ⟨fun _ _ _ _ h => place_error_inv h, fun _ _ _ _ _ h => take_error_inv h⟩

/-- Witness for C3: a rejected `place` of a card already on the table, and a
rejected `take` with an empty taken structure, both return the input state. -/
theorem rejected_call_leaves_state_witness :
    (⟨[card 0], [card 0], none⟩ : Table) = ⟨[card 0], [card 0], none⟩ ∧
    (⟨[card 5], [card 5], none⟩ : Table) = ⟨[card 5], [card 5], none⟩ :=
  ⟨rejected_call_leaves_state.1 ⟨[card 0], [card 0], none⟩ (card 0) .stateOnTable
     ⟨[card 0], [card 0], none⟩ rfl,
   rejected_call_leaves_state.2 ⟨[card 5], [card 5], none⟩ (card 6) [] .emptyTaken
     ⟨[card 5], [card 5], none⟩ rfl⟩

/-- Claim C4, as amended: the validations of `take` run in source order:
the IllegalState precondition first (so an already-played card raises the
state error whatever `taken` is), then emptiness, then played-in-taken,
then the cardinality fast path; after that the membership and duplicate
checks are interleaved per flattened card — each card has its membership
checked before its own duplicate check, and the first failing check of the
scan determines the error — rather than all membership checks running
before any duplicate check. -/
theorem validation_order_interleaved :
    (∀ (t : Table) (p : Card) (taken : List (List Card)),
      p ∈ t.cards → t.take p taken = .error (.stateOnTable, t)) ∧
    (∀ (t : Table) (p : Card) (taken : List (List Card)),
      p ∉ t.cards → p ∈ t.history → t.take p taken = .error (.statePlayed, t)) ∧
    (TableErr.stateOnTable.isIllegalMove = false ∧
     TableErr.statePlayed.isIllegalMove = false ∧
     TableErr.emptyTaken.isIllegalMove = true ∧
     TableErr.playedInTaken.isIllegalMove = true ∧
     TableErr.tooMany.isIllegalMove = true ∧
     TableErr.notOnTable.isIllegalMove = true ∧
     TableErr.dupTaken.isIllegalMove = true ∧
     TableErr.badSum.isIllegalMove = true) ∧
    (∀ (t : Table) (p : Card) (taken : List (List Card)),
      t.validateGameState p = none → flattenTaken taken = [] →
      t.take p taken = .error (.emptyTaken, t)) ∧
    (∀ (t : Table) (p : Card) (taken : List (List Card)),
      t.validateGameState p = none → p ∈ flattenTaken taken →
      t.take p taken = .error (.playedInTaken, t)) ∧
    (∀ (t : Table) (p : Card) (taken : List (List Card)),
      t.validateGameState p = none → p ∉ flattenTaken taken →
      t.cards.length < (flattenTaken taken).length →
      t.take p taken = .error (.tooMany, t)) ∧
    (∀ (t : Table) (p : Card) (taken : List (List Card)) (pre : List Card)
       (c : Card) (post : List Card),
      t.validateGameState p = none → p ∉ flattenTaken taken →
      (flattenTaken taken).length ≤ t.cards.length →
      flattenTaken taken = pre ++ c :: post →
      (∀ x ∈ pre, x ∈ t.cards) → pre.Nodup → (∀ x ∈ pre, x ∉ c :: post) →
      c ∉ t.cards →
      t.take p taken = .error (.notOnTable, t)) ∧
    (∀ (t : Table) (p : Card) (taken : List (List Card)) (pre : List Card)
       (c : Card) (post : List Card),
      t.validateGameState p = none → p ∉ flattenTaken taken →
      (flattenTaken taken).length ≤ t.cards.length →
      flattenTaken taken = pre ++ c :: post →
      (∀ x ∈ pre, x ∈ t.cards) → pre.Nodup → (∀ x ∈ pre, x ∉ c :: post) →
      c ∈ t.cards → c ∈ post →
      t.take p taken = .error (.dupTaken, t)) := by
  refine ⟨?_, ?_, ⟨rfl, rfl, rfl, rfl, rfl, rfl, rfl, rfl⟩, ?_, ?_, ?_, ?_, ?_⟩
  · intro t p taken hp
    simp [Table.take, Table.validateGameState, hp]
  · intro t p taken hp hh
    simp [Table.take, Table.validateGameState, hp, hh]
  · intro t p taken hv hflat
    simp [Table.take, hv, hflat]
  · intro t p taken hv hp
    have h1 : ¬ (flattenTaken taken).length < 1 := by
      have hne : flattenTaken taken ≠ [] := by
        intro habs; rw [habs] at hp; exact (List.not_mem_nil p) hp
      exact Nat.not_lt.mpr (Nat.one_le_iff_ne_zero.mpr
        (fun hz => hne (List.length_eq_zero.mp hz)))
    simp only [Table.take, hv, if_neg h1, if_pos hp]
  · intro t p taken hv hp hlen
    have h1 : ¬ (flattenTaken taken).length < 1 :=
      Nat.not_lt.mpr (Nat.lt_of_le_of_lt (Nat.zero_le _) hlen)
    simp only [Table.take, hv, if_neg h1, if_neg hp, if_pos hlen]
  · intro t p taken pre c post hv hp hlen hsplit hpre hnd hdisj hc
    have h1 : ¬ (flattenTaken taken).length < 1 := by
      rw [hsplit]
      simp
    have hred := take_reduce hv h1 hp (Nat.not_lt.mpr hlen)
    rw [hsplit, checkFlat_firstBad_notOnTable hpre hnd hdisj hc] at hred
    exact hred
  · intro t p taken pre c post hv hp hlen hsplit hpre hnd hdisj hc hdup
    have h1 : ¬ (flattenTaken taken).length < 1 := by
      rw [hsplit]
      simp
    have hred := take_reduce hv h1 hp (Nat.not_lt.mpr hlen)
    rw [hsplit, checkFlat_firstBad_dup hpre hnd hdisj hc hdup] at hred
    exact hred

/-- Witness for C4: taking with an already-played card and an empty taken
structure raises the IllegalState error, not an IllegalMove one. -/
theorem validation_order_interleaved_witness :
    (⟨[card 0], [card 0], none⟩ : Table).take (card 0) [] =
      .error (.stateOnTable, ⟨[card 0], [card 0], none⟩) :=
  validation_order_interleaved.1 ⟨[card 0], [card 0], none⟩ (card 0) [] (by decide)

/-- Counterexample for C4 as stated: with 2♠, 3♠, 4♠ on the table and the
request `[[2♠, K♦, 2♠]]`, the K♦ is not on the table, yet `take` raises the
duplicate error for the 2♠, not the membership error — so rule 5 is not
fully checked before rule 6. -/
theorem validation_order_counterexample :
    (⟨[card 1, card 2, card 3], [card 1, card 2, card 3], none⟩ : Table).take (card 0)
        [[card 1, card 51, card 1]] =
      .error (.dupTaken, ⟨[card 1, card 2, card 3], [card 1, card 2, card 3], none⟩) ∧
    card 51 ∈ flattenTaken [[card 1, card 51, card 1]] ∧
    card 51 ∉ ([card 1, card 2, card 3] : List Card) ∧
    TableErr.dupTaken ≠ TableErr.notOnTable := by
  refine ⟨rfl, ?_, by decide, by decide⟩
  simp [flattenTaken, card]

/-- Claim C5: for every constructible card, the stored score and capture
values match the fixed rank-based tables worded by the spec, including the
two special cases 2♣ and 10♦. -/
theorem card_score_value_match_spec :
    ∀ c : Card, c.score = specCardScore c.id.val ∧ c.value = specCardValues c.id.val := by
  intro c
  cases c with
  | mk i =>
    revert i
    decide

/-- Claim C6 (code bug): the source `Card.__init__` rejects every identity
outside `range(52)`, so identity 52 is rejected even though the claim, the
spec, and the test suite in src/tests/test_game_card.py (test_valid_multi_deck,
test_eq) require identities of 52 and beyond to construct successfully and
alias modulo 52. The embedding evaluates the constructor at the failing
input 52, at a negative input, and at the largest accepted input. -/
theorem card_construct_rejects_52 :
    cardConstruct 52 = .error "Invalid card" ∧
    cardConstruct (-1) = .error "Invalid card" ∧
    cardConstruct 51 = .ok (51, 1, [14]) :=
  ⟨rfl, rfl, rfl⟩

/-- Claim C7: on every table reachable from the empty state by successful
`place`, `take` and `reset` calls, each card identity occurs at most once
among the table cards and at most once in the history. -/
theorem reachable_identity_unique :
    ∀ t : Table, Reachable t →
    (t.cards.map Card.id).Nodup ∧ (t.history.map Card.id).Nodup := by
  intro t h
  exact ⟨(reachable_nodup h).1.map card_id_injective,
         (reachable_nodup h).2.map card_id_injective⟩

/-- Witness for C7: the table reached by placing the A♠ on a fresh table. -/
theorem reachable_identity_unique_witness :
    ((⟨[card 0], [card 0], none⟩ : Table).cards.map Card.id).Nodup ∧
    ((⟨[card 0], [card 0], none⟩ : Table).history.map Card.id).Nodup :=
  reachable_identity_unique ⟨[card 0], [card 0], none⟩
    (Reachable.placed Reachable.created rfl)

/-- Claim C8, as amended: `last` is `None` on a freshly created or reset
Table, and successful `place` and `take` calls leave `last` untouched —
nothing in the Table Engine ever points it at the played card. -/
theorem last_never_updated :
    Table.empty.last = none ∧
    (∀ t : Table, t.reset.last = none) ∧
    (∀ (t : Table) (c : Card) (t2 : Table), t.place c = .ok t2 → t2.last = t.last) ∧
    (∀ (t : Table) (p : Card) (tk : List (List Card)) (t2 : Table) (res : List Card) (cl : Bool),
       t.take p tk = .ok (t2, res, cl) → t2.last = t.last) := by
  refine ⟨rfl, fun _ => rfl, ?_, ?_⟩
  · intro t c t2 h
    rw [(place_ok_inv h).2.2]
  · intro t p tk t2 res cl h
    rw [(take_ok_inv h).2.2.2.2.2.2.1]

/-- Witness for C8: placing the A♠ on a fresh table keeps `last` equal to
the fresh value. -/
theorem last_never_updated_witness :
    (⟨[card 0], [card 0], none⟩ : Table).last = Table.empty.last :=
  last_never_updated.2.2.1 Table.empty (card 0) ⟨[card 0], [card 0], none⟩ rfl

/-- Counterexample for C8 as stated: after successfully placing the A♠ on a
fresh table, `last` does not reference the A♠. -/
theorem last_counterexample :
    Table.empty.place (card 0) = .ok ⟨[card 0], [card 0], none⟩ ∧
    (⟨[card 0], [card 0], none⟩ : Table).last ≠ some (card 0) :=
  ⟨rfl, by decide⟩

/-- Claim C9: when the chosen card is in the hand (and the taken structure
is well shaped, which every typed value here is), `Player.play` removes the
card from the hand before invoking the Table; if the Table then raises, the
error is a Table error and the card is in neither the hand nor the
collection — the protocol layer is not atomic on rejection. -/
theorem player_play_not_atomic :
    ∀ (p : Player) (t : Table) (c : Card) (tk : List (List Card))
      (e : PlayerErr) (p2 : Player) (t2 : Table),
    c ∈ p.hand → p.hand.Nodup → c ∉ p.collection →
    Player.play p t c tk = .error (e, p2, t2) →
    (∃ te, e = .tableErr te) ∧
    p2.hand = p.hand.erase c ∧ c ∉ p2.hand ∧
    p2.collection = p.collection ∧ c ∉ p2.collection := by
  intro p t c tk e p2 t2 hmem hnd hcoll h
  simp only [Player.play, if_neg (not_not_intro hmem)] at h
  by_cases hsh : (tk.length = 0 ∨ ∀ g ∈ tk, g.length = 0)
  · rw [if_pos hsh] at h
    cases hpl : t.place c with
    | error et =>
      simp only [hpl] at h
      have h2 := Except.error.inj h
      simp only [Prod.mk.injEq] at h2
      rw [← h2.2.1]
      exact ⟨⟨et.1, h2.1.symm⟩, rfl, hnd.not_mem_erase, rfl, hcoll⟩
    | ok t3 =>
      simp only [hpl] at h
      exact Except.noConfusion h
  · rw [if_neg hsh] at h
    cases htk : t.take c tk with
    | error et =>
      simp only [htk] at h
      have h2 := Except.error.inj h
      simp only [Prod.mk.injEq] at h2
      rw [← h2.2.1]
      exact ⟨⟨et.1, h2.1.symm⟩, rfl, hnd.not_mem_erase, rfl, hcoll⟩
    | ok r =>
      simp only [htk] at h
      exact Except.noConfusion h

/-- Witness for C9: a player holding only the A♠ places it on a table whose
history already holds the A♠; the Table rejects with the state error and
the card is gone from the hand without entering the collection. -/
theorem player_play_not_atomic_witness :
    (∃ te, PlayerErr.tableErr TableErr.statePlayed = PlayerErr.tableErr te) ∧
    (⟨0, [], []⟩ : Player).hand = ([card 0] : List Card).erase (card 0) ∧
    card 0 ∉ (⟨0, [], []⟩ : Player).hand ∧
    (⟨0, [], []⟩ : Player).collection = ([] : List Card) ∧
    card 0 ∉ (⟨0, [], []⟩ : Player).collection :=
  player_play_not_atomic ⟨0, [], [card 0]⟩ ⟨[], [card 0], none⟩ (card 0) []
    (PlayerErr.tableErr TableErr.statePlayed) ⟨0, [], []⟩ ⟨[], [card 0], none⟩
    (by decide) (by decide) (by decide) rfl

/-- Claim C10: a `take` whose flattened taken cards pass rules 1 through 6
but whose taken structure contains an empty sub-collection raises the
IllegalMove sum error, because the empty product sums to 0 and no card has
0 among its capture values. -/
theorem empty_subcollection_rejected :
    ∀ (t : Table) (p : Card) (taken : List (List Card)),
    t.validateGameState p = none →
    1 ≤ (flattenTaken taken).length →
    p ∉ flattenTaken taken →
    (flattenTaken taken).length ≤ t.cards.length →
    checkFlat t.cards (flattenTaken taken) = none →
    [] ∈ taken →
    t.take p taken = .error (.badSum, t) ∧
    TableErr.badSum.isIllegalMove = true ∧
    cardsSumTo [] p.value = false := by
  intro t p taken hv h1 h2 h3 hcf hnil
  have hred := take_reduce hv (Nat.not_lt.mpr h1) h2 (Nat.not_lt.mpr h3)
  rw [hcf] at hred
  have hcs : checkSums taken p.value = some .badSum :=
    checkSums_eq_some ⟨[], hnil, by simp [cardsSumTo_nil_group p]⟩
  rw [hcs] at hred
  exact ⟨hred, rfl, cardsSumTo_nil_group p⟩

/-- Witness for C10: taking the 3♠ with the 3♥ would be legal, but the
extra empty sub-collection forces the sum-rule rejection. -/
theorem empty_subcollection_rejected_witness :
    (⟨[card 2], [card 2], none⟩ : Table).take (card 15) [[card 2], []] =
      .error (.badSum, ⟨[card 2], [card 2], none⟩) ∧
    TableErr.badSum.isIllegalMove = true ∧
    cardsSumTo [] (card 15).value = false :=
  empty_subcollection_rejected ⟨[card 2], [card 2], none⟩ (card 15) [[card 2], []]
    rfl (by decide) (by decide) (by decide) rfl (by decide)
